import Mathlib

/-
Shallow embedding of the Go Fish engine of this repository.

The repository contains two variants of the engine:
  * `game.py` + `player.py` — the multi-opponent variant (cards are strings
    `"<rank>_of_<suit>"`, `GoFishAI.update_request_history` takes a player name);
  * `gofish.py` — the 1-vs-1 variant (cards are bare rank strings).

Cards of the multi-opponent variant are modelled as a `rank`/`suit` pair.
The source manipulates card-name strings; since the 13 rank literals of
`RANKS` are pairwise prefix-free and every card name has the fixed shape
`"<rank>_of_<suit>"`, the source expression `card.split("_")[0]` is the `rank`
component and `card.startswith(rank)` is equality of the `rank` component.
Ranks are numbered 0..12 in the order of `RANKS`, suits 0..3 in the order
of `SUITS`.  The one claim whose content is exactly about the card-name
strings (the human input check of `game.py`) is modelled separately at the
string level, below.

Python's `random.shuffle` is modelled by quantifying over all permutations
of the full deck, and `random.choice(l)` by `l.get? (k % l.length)` for an
arbitrary oracle `k` supplied as an argument; theorems quantify over the
oracles.  Python `float` belief scores are modelled as rationals.
-/

namespace GoFish

/-- A card of the multi-opponent variant: the string `"<rank>_of_<suit>"`
with `rank ∈ RANKS` (numbered 0..12) and `suit ∈ SUITS` (numbered 0..3). -/
structure Card where
  rank : Nat
  suit : Nat
deriving DecidableEq

/-- State of a `Player` / `GoFishAI` object (player.py).  The human
`Player` has only `name`, `hand`, `books`; the `GoFishAI` subclass adds
`request_history` (a `defaultdict(int)`), `player_probabilities`
(a `defaultdict` of `defaultdict(float)`) and `last_received_rank`
(initially `None`).  We carry the AI fields on every player; for the
human they are initialised to the defaults and never consulted. -/
structure PState where
  name : String
  hand : List Card
  books : List Nat
  request_history : Nat → Nat
  player_probabilities : String → Nat → ℚ
  last_received_rank : Option Nat

instance : Inhabited PState :=
  ⟨{ name := "", hand := [], books := [], request_history := fun _ => 0,
     player_probabilities := fun _ _ => 0, last_received_rank := none }⟩

/-- Number of cards of rank `r` in a hand (the `rank_counts` values of
`check_for_books` / `choose_request`). -/
def countRank (hand : List Card) (r : Nat) : Nat :=
  (hand.filter (fun c => decide (c.rank = r))).length

/-- Helper for `dedupFirst`: keep the elements not yet seen, in order. -/
def dedupFirstAux (seen : List Nat) : List Nat → List Nat
  | [] => []
  | r :: rs => if r ∈ seen then dedupFirstAux seen rs else r :: dedupFirstAux (r :: seen) rs

/-- First-occurrence deduplication: the key order of a Python
`defaultdict(int)` built by scanning the hand (insertion order). -/
def dedupFirst (l : List Nat) : List Nat := dedupFirstAux [] l

/-- The ranks a `check_for_books` scan turns into books: ranks occurring
exactly 4 times in the hand, in first-occurrence order (the iteration
order of `rank_counts.items()`). -/
def booksDue (hand : List Card) : List Nat :=
  (dedupFirst (hand.map Card.rank)).filter (fun r => decide (countRank hand r = 4))

/-- Embeds `Player.check_for_books` (player.py lines 18-29): for every rank whose
count is exactly 4, append the rank to `books` and remove all its cards
from `hand`.  The Python `for` loop removes the ranks one at a time from
`self.hand`; since the counts are taken once, up front, and removing the
cards of one rank does not change the count of another, the loop is
equivalent to the batch form used here: `books` gains `booksDue hand` in
iteration order and `hand` loses every card whose rank is in it. -/
def check_for_books (p : PState) : PState :=
  let tb := booksDue p.hand
  { p with books := p.books ++ tb,
           hand := p.hand.filter (fun c => decide (c.rank ∉ tb)) }

/-- Embeds `Player.receive_card` (player.py lines 13-16): append the card, then
immediately check for books.  Note that it does NOT touch
`last_received_rank` in this variant. -/
def receive_card (p : PState) (c : Card) : PState :=
  check_for_books { p with hand := p.hand ++ [c] }

/-- Embeds `Player.has_rank` (player.py lines 31-33):
`any(card.startswith(rank) for card in self.hand)`. -/
def has_rank (p : PState) (r : Nat) : Bool :=
  p.hand.any (fun c => decide (c.rank = r))

/-- Embeds `Player.give_cards` (player.py lines 35-39): returns the cards of the
requested rank and the player state with them removed. -/
def give_cards (p : PState) (r : Nat) : List Card × PState :=
  (p.hand.filter (fun c => decide (c.rank = r)),
   { p with hand := p.hand.filter (fun c => decide (¬ c.rank = r)) })

/-! ### Basic counting lemmas -/

theorem mem_dedupFirstAux (l : List Nat) (seen : List Nat) (a : Nat) :
    a ∈ dedupFirstAux seen l ↔ a ∈ l ∧ a ∉ seen := by
  induction l generalizing seen with
  | nil => simp [dedupFirstAux]
  | cons r rs ih =>
    by_cases h : r ∈ seen
    · rw [dedupFirstAux, if_pos h, ih]
      constructor
      · rintro ⟨hm, hs⟩
        exact ⟨List.mem_cons_of_mem r hm, hs⟩
      · rintro ⟨hm, hs⟩
        rcases List.mem_cons.mp hm with rfl | hm'
        · exact absurd h hs
        · exact ⟨hm', hs⟩
    · rw [dedupFirstAux, if_neg h]
      by_cases ha : a = r
      · subst ha
        simp [h]
      · simp only [List.mem_cons, ha, false_or, ih]

theorem mem_dedupFirst (l : List Nat) (a : Nat) : a ∈ dedupFirst l ↔ a ∈ l := by
  rw [dedupFirst, mem_dedupFirstAux]
  simp

theorem nodup_dedupFirstAux (l : List Nat) (seen : List Nat) :
    (dedupFirstAux seen l).Nodup := by
  induction l generalizing seen with
  | nil => simp [dedupFirstAux]
  | cons r rs ih =>
    by_cases h : r ∈ seen
    · rw [dedupFirstAux, if_pos h]
      exact ih seen
    · rw [dedupFirstAux, if_neg h]
      refine List.Nodup.cons ?_ (ih (r :: seen))
      intro hmem
      have := (mem_dedupFirstAux rs (r :: seen) r).mp hmem
      exact this.2 (List.mem_cons_self r seen)

theorem nodup_dedupFirst (l : List Nat) : (dedupFirst l).Nodup :=
  nodup_dedupFirstAux l []

theorem countRank_append (hand₁ hand₂ : List Card) (r : Nat) :
    countRank (hand₁ ++ hand₂) r = countRank hand₁ r + countRank hand₂ r := by
  simp [countRank]

theorem countRank_pos_mem (hand : List Card) (r : Nat) (h : 0 < countRank hand r) :
    r ∈ hand.map Card.rank := by
  rcases List.exists_mem_of_length_pos h with ⟨c, hc⟩
  rw [List.mem_filter] at hc
  rcases hc with ⟨hmem, hrank⟩
  simp only [decide_eq_true_eq] at hrank
  exact hrank ▸ List.mem_map_of_mem Card.rank hmem

theorem mem_booksDue (hand : List Card) (r : Nat) :
    r ∈ booksDue hand ↔ countRank hand r = 4 := by
  unfold booksDue
  rw [List.mem_filter]
  simp only [decide_eq_true_eq, mem_dedupFirst]
  constructor
  · exact fun h => h.2
  · intro h
    exact ⟨countRank_pos_mem hand r (by omega), h⟩

theorem countRank_cons (c : Card) (cs : List Card) (r : Nat) :
    countRank (c :: cs) r = (if c.rank = r then 1 else 0) + countRank cs r := by
  simp only [countRank, List.filter_cons]
  by_cases h : c.rank = r <;> simp [h, Nat.add_comm]

/-- Counting the cards that survive the book-extraction filter: a rank in
the removed set drops to 0, every other rank keeps its count. -/
theorem countRank_filter_not_mem (hand : List Card) (tb : List Nat) (r : Nat) :
    countRank (hand.filter (fun c => decide (c.rank ∉ tb))) r =
      if r ∈ tb then 0 else countRank hand r := by
  induction hand with
  | nil => simp [countRank]
  | cons c cs ih =>
    by_cases hct : c.rank ∈ tb
    · rw [List.filter_cons_of_neg (by simp [hct]), ih, countRank_cons]
      by_cases hr : r ∈ tb
      · simp [hr]
      · have hne : ¬ c.rank = r := fun he => hr (he ▸ hct)
        simp [hr, hne]
    · rw [List.filter_cons_of_pos (by simp [hct]), countRank_cons, ih, countRank_cons]
      by_cases hr : r ∈ tb
      · have hne : ¬ c.rank = r := fun he => hct (he ▸ hr)
        simp [hr, hne]
      · simp [hr]

/-- Effect of `check_for_books` on per-rank counts. -/
theorem countRank_check_for_books (p : PState) (r : Nat) :
    countRank (check_for_books p).hand r =
      if countRank p.hand r = 4 then 0 else countRank p.hand r := by
  unfold check_for_books
  rw [countRank_filter_not_mem]
  by_cases h : countRank p.hand r = 4
  · simp [h, (mem_booksDue p.hand r).mpr h]
  · have : r ∉ booksDue p.hand := fun hm => h ((mem_booksDue p.hand r).mp hm)
    simp [h, this]

theorem books_check_for_books (p : PState) :
    (check_for_books p).books = p.books ++ booksDue p.hand := rfl

/-! ### Claim C9 -/

theorem has_rank_give_cards (p : PState) (r : Nat) :
    has_rank (give_cards p r).2 r = false := by
  simp only [has_rank, give_cards, List.any_eq_true, List.mem_filter]
  simp

/-- C9: `giveCards(rank)` followed immediately by `hasRank(rank)` on the same
hand returns `false`; the returned cards are exactly the cards of the
requested rank that were held (the returned cards together with the
remaining hand are a permutation of the original hand, every returned card
has the requested rank, and none of the requested rank remains). -/
theorem C9_give_cards_removes_all (p : PState) (r : Nat) :
    has_rank (give_cards p r).2 r = false ∧
    ((give_cards p r).1 ++ (give_cards p r).2.hand).Perm p.hand ∧
    (∀ c ∈ (give_cards p r).1, c.rank = r) ∧
    countRank (give_cards p r).2.hand r = 0 := by
  refine ⟨has_rank_give_cards p r, ?_, ?_, ?_⟩
  · simpa [give_cards] using (List.filter_append_perm (fun c => decide (c.rank = r)) p.hand)
  · intro c hc
    simp only [give_cards, List.mem_filter, decide_eq_true_eq] at hc
    exact hc.2
  · simp [give_cards, countRank, List.filter_filter]

/-! ### Claim C6 -/

/-- C6: after any `receive(card)` call on a hand satisfying the book
invariant (at most 3 of each rank — every reachable hand satisfies it,
since cards arrive one at a time through `receive_card`), the hand again
holds at most 3 cards of every rank; and a single `check_for_books` scan
turns EVERY rank occurring exactly 4 times into a recorded book with all
4 of its cards removed. -/
theorem C6_receive_card_never_leaves_four (p : PState) (c : Card) :
    ((∀ r, countRank p.hand r ≤ 3) → ∀ r, countRank (receive_card p c).hand r ≤ 3) ∧
    (∀ r, countRank p.hand r = 4 →
      r ∈ (check_for_books p).books ∧ countRank (check_for_books p).hand r = 0) := by
  constructor
  · intro h3 r
    have hle : countRank (p.hand ++ [c]) r ≤ 4 := by
      rw [countRank_append]
      have := h3 r
      have hc : countRank [c] r ≤ 1 := by
        by_cases hcr : c.rank = r <;> simp [countRank, hcr]
      omega
    unfold receive_card
    rw [countRank_check_for_books]
    have hrw : ({ p with hand := p.hand ++ [c] } : PState).hand = p.hand ++ [c] := rfl
    rw [hrw]
    split <;> omega
  · intro r h4
    constructor
    · rw [books_check_for_books]
      exact List.mem_append_right _ ((mem_booksDue p.hand r).mpr h4)
    · rw [countRank_check_for_books, if_pos h4]

/-- Concrete instance of C6: a hand of three 2-of-rank-0 cards receives the
fourth; afterwards no rank has more than 3 cards, and on a hand that holds
exactly four rank-0 cards `check_for_books` records the book and empties
the rank. -/
theorem C6_receive_card_never_leaves_four_witness :
    countRank (receive_card
        { name := "Player", hand := [⟨0, 0⟩, ⟨0, 1⟩, ⟨0, 2⟩], books := [],
          request_history := fun _ => 0, player_probabilities := fun _ _ => 0,
          last_received_rank := none } ⟨0, 3⟩).hand 0 ≤ 3 ∧
    (0 ∈ (check_for_books
        { name := "Player", hand := [⟨0, 0⟩, ⟨0, 1⟩, ⟨0, 2⟩, ⟨0, 3⟩], books := [],
          request_history := fun _ => 0, player_probabilities := fun _ _ => 0,
          last_received_rank := none }).books ∧
     countRank (check_for_books
        { name := "Player", hand := [⟨0, 0⟩, ⟨0, 1⟩, ⟨0, 2⟩, ⟨0, 3⟩], books := [],
          request_history := fun _ => 0, player_probabilities := fun _ _ => 0,
          last_received_rank := none }).hand 0 = 0) := by
  constructor
  · refine (C6_receive_card_never_leaves_four _ ⟨0, 3⟩).1 ?_ 0
    intro r
    by_cases h : r = 0
    · simp [countRank, h]
    · have h0 : (0 : Nat) ≠ r := fun he => h he.symm
      simp [countRank, h0]
  · refine (C6_receive_card_never_leaves_four _ ⟨0, 3⟩).2 0 ?_
    decide

/-! ### Card conservation accounting (for C5) -/

/-- Cards attributable to one player: hand cards plus 4 per completed book. -/
def handBooks (p : PState) : Nat := p.hand.length + 4 * p.books.length

theorem length_filter_split (hand : List Card) (tb : List Nat) :
    (hand.filter (fun c => decide (c.rank ∉ tb))).length +
      (hand.filter (fun c => decide (c.rank ∈ tb))).length = hand.length := by
  induction hand with
  | nil => simp
  | cons c cs ih =>
    by_cases h : c.rank ∈ tb
    · rw [List.filter_cons_of_neg (by simp [h]), List.filter_cons_of_pos (by simp [h])]
      simp only [List.length_cons]
      omega
    · rw [List.filter_cons_of_pos (by simp [h]), List.filter_cons_of_neg (by simp [h])]
      simp only [List.length_cons]
      omega

theorem length_filter_mem_cons (hand : List Card) (r : Nat) (rs : List Nat)
    (h : r ∉ rs) :
    (hand.filter (fun c => decide (c.rank ∈ r :: rs))).length =
      countRank hand r + (hand.filter (fun c => decide (c.rank ∈ rs))).length := by
  induction hand with
  | nil => simp [countRank]
  | cons c cs ih =>
    rw [countRank_cons]
    by_cases hc : c.rank = r
    · have hnotrs : c.rank ∉ rs := fun hm => h (hc ▸ hm)
      rw [List.filter_cons_of_pos (by simp [hc]), List.filter_cons_of_neg (by simp [hnotrs]),
        if_pos hc]
      simp only [List.length_cons]
      omega
    · by_cases hrs : c.rank ∈ rs
      · rw [List.filter_cons_of_pos (by simp [hrs]), List.filter_cons_of_pos (by simp [hrs]),
          if_neg hc]
        simp only [List.length_cons]
        omega
      · rw [List.filter_cons_of_neg (by simp [hc, hrs]), List.filter_cons_of_neg (by simp [hrs]),
          if_neg hc]
        omega

theorem length_filter_mem_eq_sum (hand : List Card) (tb : List Nat) (h : tb.Nodup) :
    (hand.filter (fun c => decide (c.rank ∈ tb))).length =
      (tb.map (countRank hand)).sum := by
  induction tb with
  | nil => simp
  | cons r rs ih =>
    rcases List.nodup_cons.mp h with ⟨hr, hrs⟩
    rw [length_filter_mem_cons hand r rs hr, List.map_cons, List.sum_cons, ih hrs]

theorem nodup_booksDue (hand : List Card) : (booksDue hand).Nodup :=
  (nodup_dedupFirst _).filter _

theorem sum_map_const_four (l : List Nat) (f : Nat → Nat) (hall : ∀ r ∈ l, f r = 4) :
    (l.map f).sum = 4 * l.length := by
  induction l with
  | nil => simp
  | cons r rs ih =>
    rw [List.map_cons, List.sum_cons, hall r (List.mem_cons_self r rs),
      ih (fun x hx => hall x (List.mem_cons_of_mem r hx))]
    simp only [List.length_cons]
    omega

/-- Lemma: `check_for_books` conserves the cards attributed to a player: every new
book removes exactly its 4 cards from the hand. -/
theorem handBooks_check_for_books (p : PState) :
    handBooks (check_for_books p) = handBooks p := by
  unfold handBooks check_for_books
  simp only [List.length_append]
  have hsplit := length_filter_split p.hand (booksDue p.hand)
  have hmem := length_filter_mem_eq_sum p.hand (booksDue p.hand) (nodup_booksDue p.hand)
  have hsum : ((booksDue p.hand).map (countRank p.hand)).sum = 4 * (booksDue p.hand).length :=
    sum_map_const_four _ _ (fun r hr => (mem_booksDue p.hand r).mp hr)
  omega

theorem handBooks_receive_card (p : PState) (c : Card) :
    handBooks (receive_card p c) = handBooks p + 1 := by
  unfold receive_card
  rw [handBooks_check_for_books]
  show (p.hand ++ [c]).length + 4 * p.books.length = p.hand.length + 4 * p.books.length + 1
  simp only [List.length_append, List.length_singleton]
  omega

theorem handBooks_foldl_receive (l : List Card) (p : PState) :
    handBooks (l.foldl receive_card p) = handBooks p + l.length := by
  induction l generalizing p with
  | nil => simp
  | cons c cs ih =>
    rw [List.foldl_cons, ih, handBooks_receive_card]
    simp [Nat.add_comm, Nat.add_assoc, Nat.add_left_comm]

theorem handBooks_give_cards (p : PState) (r : Nat) :
    handBooks (give_cards p r).2 + (give_cards p r).1.length = handBooks p := by
  unfold handBooks give_cards
  simp only
  have := length_filter_split p.hand [r]
  have h1 : (p.hand.filter (fun c => decide (c.rank ∉ ([r] : List Nat)))).length =
      (p.hand.filter (fun c => decide (¬ c.rank = r))).length := by
    congr 1
    apply List.filter_congr
    intro c _
    simp
  have h2 : (p.hand.filter (fun c => decide (c.rank ∈ ([r] : List Nat)))).length =
      (p.hand.filter (fun c => decide (c.rank = r))).length := by
    congr 1
    apply List.filter_congr
    intro c _
    simp
  omega

/-! ### Opponent strategy: `GoFishAI.choose_request` (player.py lines 58-88) -/

/-- Embeds `random.choice(l)` under an explicit oracle `k`: some element of `l`
when `l` is non-empty (Python raises `IndexError` on an empty list; all
call sites are guarded by non-emptiness hypotheses in the theorems). -/
def pyChoice {α : Type} (l : List α) (k : Nat) : Option α :=
  l.get? (k % l.length)

/-- Embeds `available_ranks` (player.py line 68): the ranks of the hand, in
first-occurrence order (`rank_counts` key order), minus completed books. -/
def availableRanks (p : PState) : List Nat :=
  (dedupFirst (p.hand.map Card.rank)).filter (fun r => decide (r ∉ p.books))

/-- Embeds `smart_choices` (player.py lines 74-75): available ranks that are not
`failed_ranks` (ranks whose cumulative request count is ≥ 4). -/
def smartChoices (p : PState) : List Nat :=
  (availableRanks p).filter (fun r => decide (p.request_history r < 4))

/-- The momentum test of player.py line 78:
`self.last_received_rank in smart_choices` (Python's `None in list`
is `False`). -/
def momentumGuard (p : PState) (smart : List Nat) : Bool :=
  match p.last_received_rank with
  | some r => decide (r ∈ smart)
  | none => false

/-- Embeds `GoFishAI.choose_request` (player.py lines 58-88).  `players` is the
roster passed by the engine and `selfId` the identity of the AI itself (Python
compares object identities in `[p for p in players if p != self]`); `kR`
and `kT` are the `random.choice` oracles for the rank and the target. -/
def choose_request {α : Type} [DecidableEq α] (p : PState) (players : List α)
    (selfId : α) (kR kT : Nat) : Option Nat × Option α :=
  if p.hand.isEmpty then (none, none)
  else if (availableRanks p).isEmpty then (none, none)
  else
    let smart := smartChoices p
    let tgt := pyChoice (players.filter (fun q => decide (q ≠ selfId))) kT
    if momentumGuard p smart then (p.last_received_rank, tgt)
    else
      match smart.find? (fun r => decide (2 ≤ countRank p.hand r)) with
      | some r => (some r, tgt)
      | none =>
        (if smart.isEmpty then pyChoice (availableRanks p) kR else pyChoice smart kR, tgt)

theorem mem_availableRanks (p : PState) (r : Nat) :
    r ∈ availableRanks p ↔ r ∈ p.hand.map Card.rank ∧ r ∉ p.books := by
  rw [availableRanks, List.mem_filter, mem_dedupFirst]
  simp

theorem availableRanks_eq_nil_iff (p : PState) :
    availableRanks p = [] ↔ ∀ c ∈ p.hand, c.rank ∈ p.books := by
  rw [List.eq_nil_iff_forall_not_mem]
  constructor
  · intro h c hc
    by_contra hb
    exact h c.rank ((mem_availableRanks p c.rank).mpr
      ⟨List.mem_map_of_mem Card.rank hc, hb⟩)
  · intro h r hr
    rcases (mem_availableRanks p r).mp hr with ⟨hm, hb⟩
    rcases List.mem_map.mp hm with ⟨c, hc, rfl⟩
    exact hb (h c hc)

theorem mem_smartChoices (p : PState) (r : Nat) :
    r ∈ smartChoices p ↔ r ∈ availableRanks p ∧ p.request_history r < 4 := by
  rw [smartChoices, List.mem_filter]
  simp

theorem pyChoice_of_ne_nil {α : Type} (l : List α) (k : Nat) (h : l ≠ []) :
    ∃ a, pyChoice l k = some a ∧ a ∈ l := by
  have hl : l.length ≠ 0 := by simpa [List.length_eq_zero] using h
  have hk : k % l.length < l.length := Nat.mod_lt _ (Nat.pos_of_ne_zero hl)
  exact ⟨l.get ⟨k % l.length, hk⟩, List.get?_eq_get hk, l.get_mem _ _⟩

/-- In the live case (non-empty hand, some non-book rank) the chosen rank is
always a held, non-book rank and the target is drawn from the roster minus
the AI itself. -/
theorem choose_request_live {α : Type} [DecidableEq α] (p : PState)
    (players : List α) (selfId : α) (kR kT : Nat)
    (hhand : ¬ p.hand.isEmpty) (havail : ¬ (availableRanks p).isEmpty) :
    ∃ r, (choose_request p players selfId kR kT).1 = some r ∧ r ∈ availableRanks p ∧
      (choose_request p players selfId kR kT).2 =
        pyChoice (players.filter (fun q => decide (q ≠ selfId))) kT := by
  rw [choose_request, if_neg hhand, if_neg havail]
  simp only
  by_cases hm : momentumGuard p (smartChoices p)
  · rw [if_pos hm]
    unfold momentumGuard at hm
    match hlast : p.last_received_rank with
    | none => rw [hlast] at hm; simp at hm
    | some r0 =>
      rw [hlast] at hm
      simp only [decide_eq_true_eq] at hm
      exact ⟨r0, by simp [hlast], ((mem_smartChoices p r0).mp hm).1, rfl⟩
  · rw [if_neg hm]
    match hfind : (smartChoices p).find? (fun r => decide (2 ≤ countRank p.hand r)) with
    | some r0 =>
      have hmem := List.mem_of_find?_eq_some hfind
      exact ⟨r0, rfl, ((mem_smartChoices p r0).mp hmem).1, rfl⟩
    | none =>
      by_cases hs : (smartChoices p).isEmpty
      · rw [if_pos hs]
        have hne : availableRanks p ≠ [] := by
          simpa [List.isEmpty_iff] using havail
        rcases pyChoice_of_ne_nil (availableRanks p) kR hne with ⟨r0, hr0, hr0m⟩
        exact ⟨r0, by simp [hr0], hr0m, rfl⟩
      · rw [if_neg hs]
        have hne : smartChoices p ≠ [] := by
          simpa [List.isEmpty_iff] using hs
        rcases pyChoice_of_ne_nil (smartChoices p) kR hne with ⟨r0, hr0, hr0m⟩
        exact ⟨r0, by simp [hr0], ((mem_smartChoices p r0).mp hr0m).1, rfl⟩

/-- C7: `choose_request` returns the no-move pair `(None, None)` exactly when
the hand is empty or every held rank is already a completed book; otherwise
it returns a held non-book rank together with a target from the roster other
than the AI itself, and this holds for every value of the random oracles —
in particular also when the failed-ranks filter empties `smart_choices`. -/
theorem C7_choose_request_no_move_iff {α : Type} [DecidableEq α] (p : PState)
    (players : List α) (selfId : α) (kR kT : Nat)
    (hothers : players.filter (fun q => decide (q ≠ selfId)) ≠ []) :
    (choose_request p players selfId kR kT = (none, none) ↔
      (p.hand = [] ∨ ∀ c ∈ p.hand, c.rank ∈ p.books)) ∧
    (∀ r t, choose_request p players selfId kR kT = (some r, some t) →
      (∃ c ∈ p.hand, c.rank = r) ∧ r ∉ p.books ∧ t ∈ players ∧ t ≠ selfId) ∧
    ((∃ c ∈ p.hand, c.rank ∉ p.books) →
      ∃ r t, choose_request p players selfId kR kT = (some r, some t)) := by
  refine ⟨?_, ?_, ?_⟩
  · constructor
    · intro h
      by_cases hhand : p.hand.isEmpty
      · exact Or.inl (List.isEmpty_iff.mp hhand)
      · by_cases havail : (availableRanks p).isEmpty
        · exact Or.inr ((availableRanks_eq_nil_iff p).mp (List.isEmpty_iff.mp havail))
        · rcases choose_request_live p players selfId kR kT hhand havail with ⟨r, hr, _, _⟩
          rw [h] at hr
          simp at hr
    · intro h
      rcases h with h | h
      · rw [choose_request, if_pos (List.isEmpty_iff.mpr h)]
      · have : (availableRanks p).isEmpty :=
          List.isEmpty_iff.mpr ((availableRanks_eq_nil_iff p).mpr h)
        by_cases hhand : p.hand.isEmpty
        · rw [choose_request, if_pos hhand]
        · rw [choose_request, if_neg hhand, if_pos this]
  · intro r t h
    by_cases hhand : p.hand.isEmpty
    · rw [choose_request, if_pos hhand] at h
      simp at h
    · by_cases havail : (availableRanks p).isEmpty
      · rw [choose_request, if_neg hhand, if_pos havail] at h
        simp at h
      · rcases choose_request_live p players selfId kR kT hhand havail with ⟨r', hr', hmem, htgt⟩
        have h1 : r' = r := by
          have := congrArg Prod.fst h
          rw [hr'] at this
          simpa using this
        subst h1
        rcases (mem_availableRanks p r').mp hmem with ⟨hm, hb⟩
        rcases List.mem_map.mp hm with ⟨c, hc, hcr⟩
        have h2 : pyChoice (players.filter (fun q => decide (q ≠ selfId))) kT = some t := by
          have := congrArg Prod.snd h
          rw [htgt] at this
          simpa using this
        have htmem : t ∈ players.filter (fun q => decide (q ≠ selfId)) := by
          rcases pyChoice_of_ne_nil _ kT hothers with ⟨t', ht', htm⟩
          rw [h2] at ht'
          cases ht'
          exact htm

        rcases List.mem_filter.mp htmem with ⟨htp, hts⟩
        simp only [decide_eq_true_eq] at hts
        exact ⟨⟨c, hc, hcr⟩, hb, htp, hts⟩
  · intro h
    rcases h with ⟨c, hc, hb⟩
    have hhand : ¬ p.hand.isEmpty := by
      simp only [List.isEmpty_iff]
      intro he
      rw [he] at hc
      exact absurd hc (List.not_mem_nil c)
    have havail : ¬ (availableRanks p).isEmpty := by
      simp only [List.isEmpty_iff]
      intro he
      exact hb ((availableRanks_eq_nil_iff p).mp he c hc)
    rcases choose_request_live p players selfId kR kT hhand havail with ⟨r, hr, _, htgt⟩
    rcases pyChoice_of_ne_nil _ kT hothers with ⟨t, ht, _⟩
    refine ⟨r, t, ?_⟩
    have := htgt.trans ht
    exact Prod.ext (by simpa using hr) (by simpa using this)

/-- Concrete AI state for instantiating the strategy theorems: holds one
card of rank 0, no books, fresh history. -/
def aiFresh : PState :=
  { name := "AI 1", hand := [⟨0, 0⟩], books := [],
    request_history := fun _ => 0, player_probabilities := fun _ _ => 0,
    last_received_rank := none }

/-- Concrete instance of C7 at a live state (rank 0 held, not a book),
roster `[0, 1]` with the AI itself being `0`. -/
theorem C7_choose_request_no_move_iff_witness :
    (choose_request aiFresh [0, 1] (0 : Nat) 0 0 = (none, none) ↔
      (aiFresh.hand = [] ∨ ∀ c ∈ aiFresh.hand, c.rank ∈ aiFresh.books)) ∧
    (∀ r t, choose_request aiFresh [0, 1] (0 : Nat) 0 0 = (some r, some t) →
      (∃ c ∈ aiFresh.hand, c.rank = r) ∧ r ∉ aiFresh.books ∧ t ∈ [0, 1] ∧ t ≠ 0) ∧
    ((∃ c ∈ aiFresh.hand, c.rank ∉ aiFresh.books) →
      ∃ r t, choose_request aiFresh [0, 1] (0 : Nat) 0 0 = (some r, some t)) :=
  C7_choose_request_no_move_iff aiFresh [0, 1] 0 0 0 (by decide)

/-! ### Claim C8 -/

/-- AI state refuting C8 as stated: the last received rank 1 is held and is
not a book, but rank 1 has already been requested 4 times, so the
failed-ranks filter removes it from `smart_choices` and the pair rule picks
rank 2 instead. -/
def aiMomentumFailed : PState :=
  { name := "AI 1", hand := [⟨1, 0⟩, ⟨2, 0⟩, ⟨2, 1⟩], books := [],
    request_history := fun r => if r = 1 then 4 else 0,
    player_probabilities := fun _ _ => 0, last_received_rank := some 1 }

/-- Counterexample to C8 as stated: `last_received_rank = 1` is a currently
held non-book rank, yet `choose_request` selects rank 2 (the pair rule),
because rank 1 is filtered out as a failed rank before the momentum test. -/
theorem C8_counterexample :
    aiMomentumFailed.last_received_rank = some 1 ∧
    1 ∈ aiMomentumFailed.hand.map Card.rank ∧
    1 ∉ aiMomentumFailed.books ∧
    choose_request aiMomentumFailed [0, 1] (0 : Nat) 0 0 = (some 2, some 1) := by
  refine ⟨rfl, by decide, by decide, by decide⟩

/-- C8 amended: whenever the last successfully-acquired rank is currently
held, not a completed book, AND not excluded by the failed-ranks filter
(its cumulative request count is < 4), `choose_request` selects that rank
regardless of pair counts elsewhere in the hand. -/
theorem C8_momentum_amended {α : Type} [DecidableEq α] (p : PState)
    (players : List α) (selfId : α) (kR kT : Nat) (r : Nat)
    (hlast : p.last_received_rank = some r)
    (hheld : r ∈ p.hand.map Card.rank)
    (hbook : r ∉ p.books)
    (hfail : p.request_history r < 4) :
    (choose_request p players selfId kR kT).1 = some r := by
  have havail : r ∈ availableRanks p := (mem_availableRanks p r).mpr ⟨hheld, hbook⟩
  have hsmart : r ∈ smartChoices p := (mem_smartChoices p r).mpr ⟨havail, hfail⟩
  have hhand : ¬ p.hand.isEmpty := by
    rcases List.mem_map.mp hheld with ⟨c, hc, _⟩
    simp only [List.isEmpty_iff]
    intro he
    rw [he] at hc
    exact absurd hc (List.not_mem_nil c)
  have havail' : ¬ (availableRanks p).isEmpty := by
    simp only [List.isEmpty_iff]
    intro he
    rw [he] at havail
    exact absurd havail (List.not_mem_nil r)
  have hm : momentumGuard p (smartChoices p) = true := by
    unfold momentumGuard
    rw [hlast]
    simpa using hsmart
  rw [choose_request, if_neg hhand, if_neg havail']
  simp only [hm, if_pos]
  simp [hlast]

/-- AI state where the momentum rank survives every filter: rank 1 held,
not a book, request count 0, a pair of rank 2 also held. -/
def aiMomentumLive : PState :=
  { name := "AI 1", hand := [⟨1, 0⟩, ⟨2, 0⟩, ⟨2, 1⟩], books := [],
    request_history := fun _ => 0,
    player_probabilities := fun _ _ => 0, last_received_rank := some 1 }

/-- Concrete instance of the amended C8: with the failure filter inactive,
the momentum rank 1 is chosen over the rank-2 pair. -/
theorem C8_momentum_amended_witness :
    (choose_request aiMomentumLive [0, 1] (0 : Nat) 0 0).1 = some 1 :=
  C8_momentum_amended aiMomentumLive [0, 1] 0 0 0 1 rfl (by decide) (by decide) (by decide)

/-! ### Feedback channel: `GoFishAI.update_request_history` (player.py 90-98) -/

/-- Embeds `update_request_history(rank, player_name, success)`: increment the
rank's global request counter unconditionally, then adjust the belief
score for `(player_name, rank)` by +0.3 on success / −0.2 on failure and
clamp it into [0, 1]. -/
def update_request_history (p : PState) (r : Nat) (pname : String) (success : Bool) :
    PState :=
  { p with
    request_history := fun r' =>
      if r' = r then p.request_history r + 1 else p.request_history r',
    player_probabilities := fun n r' =>
      if n = pname ∧ r' = r then
        max 0 (min 1 (if success then p.player_probabilities pname r + 3 / 10
                      else p.player_probabilities pname r - 1 / 5))
      else p.player_probabilities n r' }

/-! ### Game engine (game.py) -/

/-- Embeds `RANKS` (game.py line 6), numbered 0..12 throughout the embedding. -/
def RANKS : List String :=
  ["2", "3", "4", "5", "6", "7", "8", "9", "10", "jack", "queen", "king", "ace"]

/-- Embeds `SUITS` (game.py line 7), numbered 0..3. -/
def SUITS : List String := ["hearts", "diamonds", "clubs", "spades"]

/-- The full 52-card deck built by `GoFishGame.__init__` before shuffling. -/
def fullDeck : List Card :=
  (List.range RANKS.length).flatMap fun r => (List.range SUITS.length).map fun s => ⟨r, s⟩

/-- Engine state: the deck, the seated players (index 0 is the human,
indices ≥ 1 the `ai_players`), and the index of `current_player`. -/
structure GState where
  deck : List Card
  players : List PState
  current : Nat

/-- Python `list.pop()`: remove and return the LAST element. -/
def popCard (deck : List Card) : Option (Card × List Card) :=
  match deck.getLast? with
  | none => none
  | some c => some (c, deck.dropLast)

/-- The feedback broadcast loops of game.py (lines 96-99 and 138-141):
`for ai in self.ai_players: if ai != <requester>: ai.update_request_history(...)`.
Seat index 0 is the human (never in `ai_players`); in `human_turn` the
guard `ai != self.human` holds for every AI, which is the `reqIdx = 0`
case of the same index condition. -/
def broadcastFrom (reqIdx r : Nat) (pname : String) (success : Bool) :
    Nat → List PState → List PState
  | _, [] => []
  | i, p :: ps =>
    (if 1 ≤ i ∧ i ≠ reqIdx then update_request_history p r pname success else p) ::
      broadcastFrom reqIdx r pname success (i + 1) ps

def broadcast_ai (s : GState) (reqIdx r : Nat) (pname : String) (success : Bool) :
    GState :=
  { s with players := broadcastFrom reqIdx r pname success 0 s.players }

/-- The request/response exchange shared by `human_turn` (game.py 82-99)
and `ai_turn` (game.py 122-141): requester `i` asks player `j` for rank
`r`.  On success all cards of the rank move to the requester (with an
extra `check_for_books` call afterwards, as in the source); on failure one
card is drawn from the deck tail if available.  The broadcast success flag
re-evaluates `target.has_rank(rank)` AFTER the exchange, exactly as the
source does on lines 99 and 141. -/
def exchangeCards (s : GState) (i j r : Nat) : GState :=
  let tgt := s.players.getD j default
  if has_rank tgt r then
    let given := (give_cards tgt r).1
    let ps1 := s.players.set j (give_cards tgt r).2
    let req' := check_for_books (given.foldl receive_card (ps1.getD i default))
    { s with players := ps1.set i req' }
  else
    match popCard s.deck with
    | none => s
    | some (c, rest) =>
      { s with deck := rest,
               players := s.players.set i (receive_card (s.players.getD i default) c) }

def exchangeCore (s : GState) (i j r : Nat) (pname : String) : GState :=
  broadcast_ai (exchangeCards s i j r) i r pname
    (has_rank ((exchangeCards s i j r).players.getD j default) r)

/-- Embeds the exchange of `human_turn`: requester is seat 0, the identity recorded in
the broadcast is the human's own name (game.py line 99). -/
def human_exchange (s : GState) (j r : Nat) : GState :=
  exchangeCore s 0 j r (s.players.getD 0 default).name

/-- Embeds the exchange of `ai_turn`: the identity recorded in the broadcast is the
the name of the target (game.py line 141). -/
def ai_exchange (s : GState) (i j r : Nat) : GState :=
  exchangeCore s i j r (s.players.getD j default).name

/-- Embeds `next_turn` (game.py 164-168): fixed round-robin advance. -/
def next_turn (s : GState) : GState :=
  { s with current := (s.current + 1) % s.players.length }

def totalBooks (s : GState) : Nat := (s.players.map fun p => p.books.length).sum

/-- Embeds `check_winner` (game.py 170-182): true iff all 13 books are completed
or some player has an empty hand. -/
def check_winner (s : GState) : Bool :=
  decide (totalBooks s = RANKS.length) || s.players.any fun p => p.hand.isEmpty

/-- Embeds `play_turn` (game.py 143-162), with the turn body (human or AI
request) abstracted as `body`: `none` models the transition to game over
(`end_game`, which stops the loop), a `some` result a completed or skipped
turn. -/
def play_turn (body : GState → GState) (s : GState) : Option GState :=
  if check_winner s then none
  else if (s.players.getD s.current default).hand.isEmpty then some (next_turn s)
  else some (next_turn (body s))

/-- The human `Player("Player")` of `GoFishGame.__init__`. -/
def mkHuman : PState :=
  { name := "Player", hand := [], books := [], request_history := fun _ => 0,
    player_probabilities := fun _ _ => 0, last_received_rank := none }

/-- Embeds the `GoFishAI` players of `GoFishGame.__init__`. -/
def mkAI (i : Nat) : PState := { mkHuman with name := "AI " ++ toString (i + 1) }

/-- Starting hand size (game.py 23-30). -/
def starting_cards (total : Nat) : Nat :=
  if total ≤ 3 then 7 else if total ≤ 6 then 5 else 4

/-- One card dealt to player `i` (guarded by `if self.deck:`). -/
def dealOne (s : GState) (i : Nat) : GState :=
  match popCard s.deck with
  | none => s
  | some (c, rest) =>
    { s with deck := rest,
             players := s.players.set i (receive_card (s.players.getD i default) c) }

/-- One round of the dealing loop: one card to each seat in order. -/
def dealRound (s : GState) : GState := (List.range s.players.length).foldl dealOne s

/-- Embeds `GoFishGame.__init__` (game.py 13-36) for a given shuffled deck
`deck0`: seat the human and the AIs, then deal the starting hands
round-robin. -/
def setupState (numAI : Nat) (deck0 : List Card) : GState :=
  dealRound^[starting_cards (mkHuman :: (List.range numAI).map mkAI).length]
    { deck := deck0, players := mkHuman :: (List.range numAI).map mkAI, current := 0 }

/-- Observation points of the engine: the state after setup (for any
shuffle, i.e. any permutation of the full deck) and after each completed
exchange or skipped turn. -/
inductive Reach : GState → Prop where
  | init : ∀ numAI deck0, deck0.Perm fullDeck → Reach (setupState numAI deck0)
  | human_ex : ∀ s j r, Reach s → j < s.players.length → 1 ≤ j →
      Reach (human_exchange s j r)
  | ai_ex : ∀ s i j r, Reach s → i < s.players.length → j < s.players.length →
      1 ≤ i → i ≠ j → Reach (ai_exchange s i j r)
  | skip : ∀ s, Reach s → Reach (next_turn s)

/-! ### Claim C4 -/

/-- C4: `check_winner` returns true iff the total completed books across
all players equals 13 or some player's hand is empty; `play_turn` tests it
before doing anything, so once any hand is empty no further turn is
executed (the body is never run, for ANY turn body). -/
theorem C4_game_over_iff (s : GState) (body : GState → GState) :
    (check_winner s = true ↔
      (totalBooks s = 13 ∨ ∃ p ∈ s.players, p.hand = [])) ∧
    ((∃ p ∈ s.players, p.hand = []) → play_turn body s = none) := by
  have hlen : RANKS.length = 13 := rfl
  have h1 : check_winner s = true ↔
      (totalBooks s = 13 ∨ ∃ p ∈ s.players, p.hand = []) := by
    rw [check_winner, hlen]
    simp [List.any_eq_true, List.isEmpty_iff]
  refine ⟨h1, fun h => ?_⟩
  rw [play_turn, if_pos (h1.mpr (Or.inr h))]

/-- A state whose only player has an empty hand. -/
def emptyHandState : GState := { deck := [⟨0, 0⟩], players := [mkHuman], current := 0 }

/-- Concrete instance of C4: with an empty human hand (and a non-empty
deck, fewer than 13 books) no turn is executed. -/
theorem C4_game_over_iff_witness : play_turn id emptyHandState = none :=
  (C4_game_over_iff emptyHandState id).2
    ⟨mkHuman, by simp [emptyHandState], rfl⟩

/-! ### Index bookkeeping lemmas -/

theorem getD_set_same {α : Type} (l : List α) (i : Nat) (x d : α) (h : i < l.length) :
    (l.set i x).getD i d = x := by
  simp [List.getD, List.getElem?_set, h]

theorem getD_set_diff {α : Type} (l : List α) (i k : Nat) (x d : α) (h : i ≠ k) :
    (l.set i x).getD k d = l.getD k d := by
  simp [List.getD, List.getElem?_set, h]

theorem length_broadcastFrom (reqIdx r : Nat) (pname : String) (b : Bool) :
    ∀ (l : List PState) (i : Nat),
      (broadcastFrom reqIdx r pname b i l).length = l.length := by
  intro l
  induction l with
  | nil => intro i; rfl
  | cons p ps ih => intro i; simp [broadcastFrom, ih]

theorem getD_broadcastFrom (reqIdx r : Nat) (pname : String) (b : Bool) :
    ∀ (l : List PState) (i k : Nat) (d : PState), k < l.length →
      (broadcastFrom reqIdx r pname b i l).getD k d =
        if 1 ≤ i + k ∧ i + k ≠ reqIdx then
          update_request_history (l.getD k d) r pname b
        else l.getD k d := by
  intro l
  induction l with
  | nil => intro i k d h; simp at h
  | cons p ps ih =>
    intro i k d h
    cases k with
    | zero =>
      simp only [broadcastFrom, List.getD_cons_zero, Nat.add_zero]
    | succ k' =>
      have hk' : k' < ps.length := by simpa using h
      simp only [broadcastFrom, List.getD_cons_succ]
      rw [ih (i + 1) k' d hk']
      have harith : i + 1 + k' = i + (k' + 1) := by omega
      rw [harith]

/-- The card-moving phase never touches the request history of any player. -/
theorem request_history_exchangeCards (s : GState) (i j r : Nat) (hij : i ≠ j)
    (hi : i < s.players.length) (k : Nat) (hk : k < s.players.length) :
    ((exchangeCards s i j r).players.getD k default).request_history =
      (s.players.getD k default).request_history := by
  have hrecv : ∀ (p : PState) (c : Card),
      (receive_card p c).request_history = p.request_history := fun _ _ => rfl
  have hfold : ∀ (cs : List Card) (p : PState),
      (cs.foldl receive_card p).request_history = p.request_history := by
    intro cs
    induction cs with
    | nil => intro p; rfl
    | cons c cs' ih => intro p; rw [List.foldl_cons, ih, hrecv]
  rw [exchangeCards]
  by_cases hr : has_rank (s.players.getD j default) r
  · rw [if_pos hr]
    simp only
    by_cases hki : k = i
    · subst hki
      rw [getD_set_same _ _ _ _ (by simpa [List.length_set] using hi)]
      show (check_for_books _).request_history = _
      have : ∀ q : PState, (check_for_books q).request_history = q.request_history :=
        fun _ => rfl
      rw [this, hfold]
      rw [getD_set_diff _ _ _ _ _ (fun he => hij he.symm)]
    · rw [getD_set_diff _ _ _ _ _ (fun he => hki he.symm)]
      by_cases hkj : k = j
      · subst hkj
        rw [getD_set_same _ _ _ _ hk]
        rfl
      · rw [getD_set_diff _ _ _ _ _ (fun he => hkj he.symm)]
  · rw [if_neg hr]
    match hpop : popCard s.deck with
    | none => rfl
    | some (c, rest) =>
      simp only
      by_cases hki : k = i
      · subst hki
        rw [getD_set_same _ _ _ _ hi, hrecv]
      · rw [getD_set_diff _ _ _ _ _ (fun he => hki he.symm)]

theorem length_exchangeCards (s : GState) (i j r : Nat) :
    (exchangeCards s i j r).players.length = s.players.length := by
  rw [exchangeCards]
  by_cases hr : has_rank (s.players.getD j default) r
  · rw [if_pos hr]
    simp [List.length_set]
  · rw [if_neg hr]
    match hpop : popCard s.deck with
    | none => rfl
    | some (c, rest) => simp [List.length_set]

theorem request_history_update_self (p : PState) (r : Nat) (pname : String) (b : Bool) :
    (update_request_history p r pname b).request_history r = p.request_history r + 1 := by
  simp [update_request_history]

theorem player_probabilities_update_self (p : PState) (r : Nat) (pname : String)
    (b : Bool) :
    (update_request_history p r pname b).player_probabilities pname r =
      max 0 (min 1 (if b then p.player_probabilities pname r + 3 / 10
                    else p.player_probabilities pname r - 1 / 5)) := by
  simp [update_request_history]

/-- The card-moving phase leaves every player other than the requester and
the target completely unchanged. -/
theorem exchangeCards_other (s : GState) (i j r : Nat) (k : Nat)
    (hki : k ≠ i) (hkj : k ≠ j) :
    (exchangeCards s i j r).players.getD k default = s.players.getD k default := by
  rw [exchangeCards]
  by_cases hr : has_rank (s.players.getD j default) r
  · rw [if_pos hr]
    simp only
    rw [getD_set_diff _ _ _ _ _ (fun he => hki he.symm),
      getD_set_diff _ _ _ _ _ (fun he => hkj he.symm)]
  · rw [if_neg hr]
    match hpop : popCard s.deck with
    | none => rfl
    | some (c, rest) =>
      simp only
      rw [getD_set_diff _ _ _ _ _ (fun he => hki he.symm)]

/-! ### Claim C3 (corrected) -/

/-- C3 amended: the feedback broadcast of a completed exchange updates
every AI player except the requester — INCLUDING the direct target when
the target is an AI — and leaves the requester and the human untouched.
(`pname` is `human.name` on a human turn and `target.name` on an AI turn;
the statement holds for either.) -/
theorem C3_broadcast_targets_amended (s : GState) (i j r : Nat) (pname : String)
    (hi : i < s.players.length) (hj : j < s.players.length) (hij : i ≠ j) :
    (∀ k, k < s.players.length → 1 ≤ k → k ≠ i →
      ((exchangeCore s i j r pname).players.getD k default).request_history r =
        (s.players.getD k default).request_history r + 1) ∧
    (∀ k, k < s.players.length → (k = i ∨ k = 0) →
      ((exchangeCore s i j r pname).players.getD k default).request_history r =
        (s.players.getD k default).request_history r) := by
  have hlen : (exchangeCards s i j r).players.length = s.players.length :=
    length_exchangeCards s i j r
  constructor
  · intro k hk h1k hki
    rw [exchangeCore, broadcast_ai]
    show ((broadcastFrom i r pname _ 0 (exchangeCards s i j r).players).getD
        k default).request_history r = _
    rw [getD_broadcastFrom _ _ _ _ _ 0 k default (by omega)]
    rw [if_pos ⟨by omega, by omega⟩, request_history_update_self,
      request_history_exchangeCards s i j r hij hi k hk]
  · intro k hk hcase
    rw [exchangeCore, broadcast_ai]
    show ((broadcastFrom i r pname _ 0 (exchangeCards s i j r).players).getD
        k default).request_history r = _
    rw [getD_broadcastFrom _ _ _ _ _ 0 k default (by omega)]
    rcases hcase with hkie | hk0e
    · rw [if_neg (by omega), request_history_exchangeCards s i j r hij hi k hk]
    · rw [if_neg (by omega), request_history_exchangeCards s i j r hij hi k hk]

/-- Three seats: the human, AI 1 (requester, one rank-2 card) and AI 2
(target, one rank-5 card); fresh histories. -/
def bcastState : GState :=
  { deck := [],
    players := [mkHuman,
      { mkAI 0 with hand := [⟨2, 0⟩] },
      { mkAI 1 with hand := [⟨5, 0⟩] }],
    current := 1 }

/-- Counterexample to C3 as stated: AI 1 asks AI 2 (the direct target) for
rank 5; afterwards the request-history count of the TARGET itself for rank 5
has been incremented, so the records of the direct target do not stay
unchanged. -/
theorem C3_counterexample :
    ((ai_exchange bcastState 1 2 5).players.getD 2 default).request_history 5 = 1 ∧
    (bcastState.players.getD 2 default).request_history 5 = 0 := by
  constructor
  · decide
  · decide

/-- Concrete instance of the amended C3 at `bcastState`: the target AI 2 is
updated, the requester AI 1 and the human are not. -/
theorem C3_broadcast_targets_amended_witness :
    ((ai_exchange bcastState 1 2 5).players.getD 2 default).request_history 5 =
      (bcastState.players.getD 2 default).request_history 5 + 1 ∧
    ((ai_exchange bcastState 1 2 5).players.getD 1 default).request_history 5 =
      (bcastState.players.getD 1 default).request_history 5 :=
  ⟨(C3_broadcast_targets_amended bcastState 1 2 5
      (bcastState.players.getD 2 default).name (by decide) (by decide)
      (by decide)).1 2 (by decide) (by decide) (by decide),
   (C3_broadcast_targets_amended bcastState 1 2 5
      (bcastState.players.getD 2 default).name (by decide) (by decide)
      (by decide)).2 1 (by decide) (Or.inl rfl)⟩

/-! ### Claim C1 (code bug) -/

/-- Name of the human seat, `"Player"` in game.py. -/
def humanName : String := "Player"

/-- Three seats: the human holds the rank-7 card that AI 1 will request;
AI 2 observes with prior belief 1/2 that the human holds rank 7. -/
def beliefState : GState :=
  { deck := [],
    players := [{ mkHuman with hand := [⟨7, 0⟩] },
      { mkAI 0 with hand := [⟨1, 0⟩] },
      { mkAI 1 with player_probabilities := fun n r =>
          if n = humanName ∧ r = 7 then 1 / 2 else 0 }],
    current := 1 }

/-- C1 evaluated at a successful exchange: the target (the human) held the
requested rank 7 at the moment of the request, yet the success flag the
broadcast passes — `target.has_rank(rank)` re-evaluated AFTER the cards
moved (game.py lines 99/141) — is `false`, so the belief of the observing AI 2
for ("Player", 7) is DECREASED from 1/2 to 3/10 (−0.2, the failure
update) instead of being increased by 0.3 as the claim states. -/
theorem C1_success_flag_evaluated_after_transfer :
    has_rank (beliefState.players.getD 0 default) 7 = true ∧
    has_rank ((exchangeCards beliefState 1 0 7).players.getD 0 default) 7 = false ∧
    ((ai_exchange beliefState 1 0 7).players.getD 2 default).player_probabilities
        humanName 7 = 3 / 10 ∧
    ((ai_exchange beliefState 1 0 7).players.getD 2 default).player_probabilities
        humanName 7 ≠
      (beliefState.players.getD 2 default).player_probabilities humanName 7 + 3 / 10 := by
  have hflag : has_rank ((exchangeCards beliefState 1 0 7).players.getD 0 default) 7 =
      false := by decide
  have hpre : (beliefState.players.getD 2 default).player_probabilities humanName 7 =
      1 / 2 := by norm_num [beliefState, mkAI, mkHuman, List.getD]
  have hname : (beliefState.players.getD 0 default).name = humanName := rfl
  have hmain : ((ai_exchange beliefState 1 0 7).players.getD 2 default).player_probabilities
      humanName 7 = 3 / 10 := by
    rw [ai_exchange, exchangeCore, broadcast_ai]
    show ((broadcastFrom 1 7 _ _ 0 (exchangeCards beliefState 1 0 7).players).getD
        2 default).player_probabilities humanName 7 = 3 / 10
    rw [getD_broadcastFrom _ _ _ _ _ 0 2 default
      (by rw [length_exchangeCards]; decide)]
    rw [if_pos ⟨by omega, by omega⟩]
    rw [hflag, hname]
    have hmid : (exchangeCards beliefState 1 0 7).players.getD 2 default =
        beliefState.players.getD 2 default :=
      exchangeCards_other beliefState 1 0 7 2 (by omega) (by omega)
    rw [hmid, player_probabilities_update_self, hpre]
    norm_num
  refine ⟨by decide, hflag, hmain, ?_⟩
  rw [hmain, hpre]
  norm_num

/-! ### Claim C5: card conservation -/

/-- Total cards at an observation point: deck cards plus every hand card
plus 4 per completed book. -/
def cardTotal (s : GState) : Nat := s.deck.length + (s.players.map handBooks).sum

theorem sum_map_set (l : List PState) (i : Nat) (x : PState) (h : i < l.length) :
    ((l.set i x).map handBooks).sum + handBooks (l.getD i default) =
      (l.map handBooks).sum + handBooks x := by
  induction l generalizing i with
  | nil => simp at h
  | cons p ps ih =>
    cases i with
    | zero =>
      simp only [List.set, List.map_cons, List.sum_cons, List.getD_cons_zero]
      omega
    | succ i' =>
      have h' : i' < ps.length := by simpa using h
      have := ih i' h'
      simp only [List.set, List.map_cons, List.sum_cons, List.getD_cons_succ]
      omega

theorem popCard_length (deck : List Card) (c : Card) (rest : List Card)
    (h : popCard deck = some (c, rest)) : rest.length + 1 = deck.length := by
  rw [popCard] at h
  match hl : deck.getLast? with
  | none =>
    rw [hl] at h
    simp at h
  | some c' =>
    rw [hl] at h
    simp only [Option.some.injEq, Prod.mk.injEq] at h
    have hne : deck ≠ [] := by
      intro he
      subst he
      simp at hl
    have hpos : 0 < deck.length := List.length_pos.mpr hne
    rw [← h.2, List.length_dropLast]
    omega

theorem map_handBooks_broadcastFrom (reqIdx r : Nat) (pname : String) (b : Bool) :
    ∀ (l : List PState) (i : Nat),
      (broadcastFrom reqIdx r pname b i l).map handBooks = l.map handBooks := by
  intro l
  induction l with
  | nil => intro i; rfl
  | cons p ps ih =>
    intro i
    simp only [broadcastFrom, List.map_cons, ih]
    congr 1
    by_cases h : 1 ≤ i ∧ i ≠ reqIdx
    · rw [if_pos h]
      rfl
    · rw [if_neg h]

theorem cardTotal_exchangeCards (s : GState) (i j r : Nat)
    (hi : i < s.players.length) (hj : j < s.players.length) (hij : i ≠ j) :
    cardTotal (exchangeCards s i j r) = cardTotal s := by
  rw [exchangeCards]
  by_cases hr : has_rank (s.players.getD j default) r
  · rw [if_pos hr]
    simp only [cardTotal]
    have hlen1 : (s.players.set j (give_cards (s.players.getD j default) r).2).length =
        s.players.length := by simp [List.length_set]
    have e1 := sum_map_set
      (s.players.set j (give_cards (s.players.getD j default) r).2) i
      (check_for_books
        (((give_cards (s.players.getD j default) r).1).foldl receive_card
          ((s.players.set j (give_cards (s.players.getD j default) r).2).getD i default)))
      (by rw [hlen1]; exact hi)
    have e2 := sum_map_set s.players j (give_cards (s.players.getD j default) r).2 hj
    have e3 : handBooks (check_for_books
        (((give_cards (s.players.getD j default) r).1).foldl receive_card
          ((s.players.set j (give_cards (s.players.getD j default) r).2).getD i default))) =
        handBooks ((s.players.set j (give_cards (s.players.getD j default) r).2).getD i default) +
          ((give_cards (s.players.getD j default) r).1).length := by
      rw [handBooks_check_for_books, handBooks_foldl_receive]
    have e4 := handBooks_give_cards (s.players.getD j default) r
    omega
  · rw [if_neg hr]
    match hpop : popCard s.deck with
    | none => rfl
    | some (c, rest) =>
      simp only [cardTotal]
      have e1 := sum_map_set s.players i
        (receive_card (s.players.getD i default) c) hi
      have e2 := handBooks_receive_card (s.players.getD i default) c
      have e3 := popCard_length s.deck c rest hpop
      omega

theorem cardTotal_exchangeCore (s : GState) (i j r : Nat) (pname : String)
    (hi : i < s.players.length) (hj : j < s.players.length) (hij : i ≠ j) :
    cardTotal (exchangeCore s i j r pname) = cardTotal s := by
  rw [exchangeCore, broadcast_ai]
  show (exchangeCards s i j r).deck.length +
    ((broadcastFrom i r pname _ 0 (exchangeCards s i j r).players).map handBooks).sum = _
  rw [map_handBooks_broadcastFrom]
  exact cardTotal_exchangeCards s i j r hi hj hij

theorem length_dealOne (s : GState) (i : Nat) :
    (dealOne s i).players.length = s.players.length := by
  rw [dealOne]
  match hpop : popCard s.deck with
  | none => rfl
  | some (c, rest) => simp [List.length_set]

theorem cardTotal_dealOne (s : GState) (i : Nat) (h : i < s.players.length) :
    cardTotal (dealOne s i) = cardTotal s := by
  rw [dealOne]
  match hpop : popCard s.deck with
  | none => rfl
  | some (c, rest) =>
    simp only [cardTotal]
    have e1 := sum_map_set s.players i (receive_card (s.players.getD i default) c) h
    have e2 := handBooks_receive_card (s.players.getD i default) c
    have e3 := popCard_length s.deck c rest hpop
    omega

theorem foldl_dealOne_invariant (idxs : List Nat) (s : GState)
    (h : ∀ x ∈ idxs, x < s.players.length) :
    cardTotal (idxs.foldl dealOne s) = cardTotal s ∧
      (idxs.foldl dealOne s).players.length = s.players.length := by
  induction idxs generalizing s with
  | nil => exact ⟨rfl, rfl⟩
  | cons x xs ih =>
    rw [List.foldl_cons]
    have hx : x < s.players.length := h x (List.mem_cons_self x xs)
    have hrest : ∀ y ∈ xs, y < (dealOne s x).players.length := by
      intro y hy
      rw [length_dealOne]
      exact h y (List.mem_cons_of_mem x hy)
    rcases ih (dealOne s x) hrest with ⟨h1, h2⟩
    exact ⟨h1.trans (cardTotal_dealOne s x hx), h2.trans (length_dealOne s x)⟩

theorem dealRound_invariant (s : GState) :
    cardTotal (dealRound s) = cardTotal s ∧
      (dealRound s).players.length = s.players.length := by
  rw [dealRound]
  exact foldl_dealOne_invariant (List.range s.players.length) s
    (fun x hx => List.mem_range.mp hx)

theorem iterate_dealRound_invariant (n : Nat) (s : GState) :
    cardTotal (dealRound^[n] s) = cardTotal s ∧
      (dealRound^[n] s).players.length = s.players.length := by
  induction n generalizing s with
  | zero => exact ⟨rfl, rfl⟩
  | succ n' ih =>
    rw [Function.iterate_succ_apply]
    rcases ih (dealRound s) with ⟨h1, h2⟩
    rcases dealRound_invariant s with ⟨h3, h4⟩
    exact ⟨h1.trans h3, h2.trans h4⟩

theorem handBooks_mkHuman : handBooks mkHuman = 0 := rfl

theorem handBooks_mkAI (i : Nat) : handBooks (mkAI i) = 0 := rfl

theorem cardTotal_setupState (numAI : Nat) (deck0 : List Card)
    (hperm : deck0.Perm fullDeck) : cardTotal (setupState numAI deck0) = 52 := by
  have hd0 : deck0.length = 52 := by
    rw [hperm.length_eq]
    rfl
  rw [setupState]
  rcases iterate_dealRound_invariant
    (starting_cards (mkHuman :: (List.range numAI).map mkAI).length)
    { deck := deck0, players := mkHuman :: (List.range numAI).map mkAI,
      current := 0 } with ⟨h1, _⟩
  rw [h1, cardTotal]
  have hzero : ((mkHuman :: (List.range numAI).map mkAI).map handBooks).sum = 0 := by
    apply List.sum_eq_zero
    intro x hx
    simp only [List.map_cons, List.mem_cons, List.map_map, List.mem_map] at hx
    rcases hx with rfl | ⟨y, _, rfl⟩
    · rfl
    · rfl
  rw [hzero] at *
  simpa using hd0

theorem length_setupState (numAI : Nat) (deck0 : List Card) :
    (setupState numAI deck0).players.length = numAI + 1 := by
  rw [setupState]
  rcases iterate_dealRound_invariant
    (starting_cards (mkHuman :: (List.range numAI).map mkAI).length)
    { deck := deck0, players := mkHuman :: (List.range numAI).map mkAI,
      current := 0 } with ⟨_, h2⟩
  rw [h2]
  simp

/-- C5: at every observation point — after setup with any shuffle, and
after every completed exchange or skipped turn — the deck cards plus all
hand cards plus 4 cards per completed book sum to exactly 52. -/
theorem C5_card_conservation (s : GState) (h : Reach s) : cardTotal s = 52 := by
  induction h with
  | init numAI deck0 hperm => exact cardTotal_setupState numAI deck0 hperm
  | human_ex s j r hs hj h1j ih =>
    rw [human_exchange, cardTotal_exchangeCore s 0 j r _ (by omega) hj (by omega)]
    exact ih
  | ai_ex s i j r hs hi hj h1i hij ih =>
    rw [ai_exchange, cardTotal_exchangeCore s i j r _ hi hj hij]
    exact ih
  | skip s hs ih =>
    exact ih

/-- Concrete instance of C5: the freshly set-up two-player game (human and
one AI, unshuffled deck) accounts for all 52 cards. -/
theorem C5_card_conservation_witness : cardTotal (setupState 1 fullDeck) = 52 :=
  C5_card_conservation (setupState 1 fullDeck)
    (Reach.init 1 fullDeck (List.Perm.refl fullDeck))

/-! ### Claim C10: `last_received_rank` is never assigned in the
multi-opponent variant -/

theorem last_received_receive (p : PState) (c : Card) :
    (receive_card p c).last_received_rank = p.last_received_rank := rfl

theorem last_received_foldl (cs : List Card) (p : PState) :
    (cs.foldl receive_card p).last_received_rank = p.last_received_rank := by
  induction cs generalizing p with
  | nil => rfl
  | cons c cs' ih => rw [List.foldl_cons, ih, last_received_receive]

theorem getD_mem_of_lt {α : Type} (l : List α) (k : Nat) (d : α)
    (h : k < l.length) : l.getD k d ∈ l := by
  induction l generalizing k with
  | nil => simp at h
  | cons a as ih =>
    cases k with
    | zero => simp
    | succ k' =>
      rw [List.getD_cons_succ]
      exact List.mem_cons_of_mem a (ih k' (by simpa using h))

/-- The card-moving phase never assigns `last_received_rank`
(`Player.receive_card` of player.py does not set it). -/
theorem last_received_exchangeCards (s : GState) (i j r : Nat) (hij : i ≠ j)
    (hi : i < s.players.length) (k : Nat) (hk : k < s.players.length) :
    ((exchangeCards s i j r).players.getD k default).last_received_rank =
      (s.players.getD k default).last_received_rank := by
  rw [exchangeCards]
  by_cases hr : has_rank (s.players.getD j default) r
  · rw [if_pos hr]
    simp only
    by_cases hki : k = i
    · subst hki
      rw [getD_set_same _ _ _ _ (by simpa [List.length_set] using hi)]
      show (check_for_books _).last_received_rank = _
      have hcfb : ∀ q : PState, (check_for_books q).last_received_rank =
          q.last_received_rank := fun _ => rfl
      rw [hcfb, last_received_foldl]
      rw [getD_set_diff _ _ _ _ _ (fun he => hij he.symm)]
    · rw [getD_set_diff _ _ _ _ _ (fun he => hki he.symm)]
      by_cases hkj : k = j
      · subst hkj
        rw [getD_set_same _ _ _ _ hk]
        rfl
      · rw [getD_set_diff _ _ _ _ _ (fun he => hkj he.symm)]
  · rw [if_neg hr]
    match hpop : popCard s.deck with
    | none => rfl
    | some (c, rest) =>
      simp only
      by_cases hki : k = i
      · subst hki
        rw [getD_set_same _ _ _ _ hi, last_received_receive]
      · rw [getD_set_diff _ _ _ _ _ (fun he => hki he.symm)]

/-- Holds when the `last_received_rank` of every seated player is `None`. -/
def AllNone (s : GState) : Prop :=
  ∀ k, k < s.players.length → (s.players.getD k default).last_received_rank = none

theorem AllNone_exchangeCore (s : GState) (i j r : Nat) (pname : String)
    (hi : i < s.players.length) (hj : j < s.players.length) (hij : i ≠ j)
    (h : AllNone s) : AllNone (exchangeCore s i j r pname) := by
  intro k hk
  have hlen : (exchangeCore s i j r pname).players.length = s.players.length := by
    rw [exchangeCore, broadcast_ai]
    show (broadcastFrom i r pname _ 0 (exchangeCards s i j r).players).length = _
    rw [length_broadcastFrom, length_exchangeCards]
  rw [hlen] at hk
  rw [exchangeCore, broadcast_ai]
  show ((broadcastFrom i r pname _ 0 (exchangeCards s i j r).players).getD
      k default).last_received_rank = none
  rw [getD_broadcastFrom _ _ _ _ _ 0 k default (by rw [length_exchangeCards]; exact hk)]
  have hmid : ((exchangeCards s i j r).players.getD k default).last_received_rank =
      none := by
    rw [last_received_exchangeCards s i j r hij hi k hk]
    exact h k hk
  by_cases hcond : 1 ≤ 0 + k ∧ 0 + k ≠ i
  · rw [if_pos hcond]
    show ((exchangeCards s i j r).players.getD k default).last_received_rank = none
    exact hmid
  · rw [if_neg hcond]
    exact hmid

theorem AllNone_dealOne (s : GState) (i : Nat) (hi : i < s.players.length)
    (h : AllNone s) : AllNone (dealOne s i) := by
  intro k hk
  rw [length_dealOne] at hk
  rw [dealOne]
  match hpop : popCard s.deck with
  | none => exact h k hk
  | some (c, rest) =>
    simp only
    by_cases hki : k = i
    · subst hki
      rw [getD_set_same _ _ _ _ hi, last_received_receive]
      exact h k hk
    · rw [getD_set_diff _ _ _ _ _ (fun he => hki he.symm)]
      exact h k hk

theorem AllNone_foldl_dealOne (idxs : List Nat) (s : GState)
    (hidx : ∀ x ∈ idxs, x < s.players.length) (h : AllNone s) :
    AllNone (idxs.foldl dealOne s) := by
  induction idxs generalizing s with
  | nil => exact h
  | cons x xs ih =>
    rw [List.foldl_cons]
    have hx : x < s.players.length := hidx x (List.mem_cons_self x xs)
    refine ih (dealOne s x) ?_ (AllNone_dealOne s x hx h)
    intro y hy
    rw [length_dealOne]
    exact hidx y (List.mem_cons_of_mem x hy)

theorem AllNone_dealRound (s : GState) (h : AllNone s) : AllNone (dealRound s) := by
  rw [dealRound]
  exact AllNone_foldl_dealOne (List.range s.players.length) s
    (fun x hx => List.mem_range.mp hx) h

theorem AllNone_iterate (n : Nat) (s : GState) (h : AllNone s) :
    AllNone (dealRound^[n] s) := by
  induction n generalizing s with
  | zero => exact h
  | succ n' ih =>
    rw [Function.iterate_succ_apply]
    exact ih (dealRound s) (AllNone_dealRound s h)

theorem AllNone_setupState (numAI : Nat) (deck0 : List Card) :
    AllNone (setupState numAI deck0) := by
  rw [setupState]
  apply AllNone_iterate
  intro k hk
  have hmem := getD_mem_of_lt (mkHuman :: (List.range numAI).map mkAI) k default hk
  rcases List.mem_cons.mp hmem with he | hm
  · rw [he]
    rfl
  · rcases List.mem_map.mp hm with ⟨y, _, he⟩
    rw [← he]
    rfl

theorem AllNone_next_turn (s : GState) (h : AllNone s) : AllNone (next_turn s) := h

theorem AllNone_reach (s : GState) (h : Reach s) : AllNone s := by
  induction h with
  | init numAI deck0 hperm => exact AllNone_setupState numAI deck0
  | human_ex s j r hs hj h1j ih =>
    exact AllNone_exchangeCore s 0 j r _ (by omega) hj (by omega) ih
  | ai_ex s i j r hs hi hj h1i hij ih =>
    exact AllNone_exchangeCore s i j r _ hi hj hij ih
  | skip s hs ih => exact AllNone_next_turn s ih

/-- C10: in the multi-opponent variant no operation ever assigns
`last_received_rank` after construction (`Player.receive_card` of
player.py does not set it), so at every reachable state it is still
`None` for every seated player, and the momentum test of
`choose_request` (priority 3) is then `False` for every candidate list —
the momentum rule never determines the chosen rank. -/
theorem C10_last_received_rank_stays_none (s : GState) (h : Reach s) (k : Nat)
    (hk : k < s.players.length) (smart : List Nat) :
    (s.players.getD k default).last_received_rank = none ∧
    momentumGuard (s.players.getD k default) smart = false := by
  have hnone := AllNone_reach s h k hk
  refine ⟨hnone, ?_⟩
  unfold momentumGuard
  rw [hnone]

/-- Concrete instance of C10 at the freshly dealt solo game. -/
theorem C10_last_received_rank_stays_none_witness :
    ((setupState 0 fullDeck).players.getD 0 default).last_received_rank = none ∧
    momentumGuard ((setupState 0 fullDeck).players.getD 0 default) [] = false :=
  C10_last_received_rank_stays_none (setupState 0 fullDeck)
    (Reach.init 0 fullDeck (List.Perm.refl fullDeck)) 0
    (by rw [length_setupState]; omega) []

/-! ### Claim C2: the human rank check of game.py (string level)

game.py keeps the human hand as card-name strings `"<rank>_of_<suit>"`.
`human_turn` (lines 57-61) uppercases the typed rank and loops
`while rank not in self.human.hand` — a LIST MEMBERSHIP test of the rank
against full card names — whereas holding a rank is
the `any(card.startswith(rank) ...)` test of `Player.has_rank`. -/

/-- Python `card.startswith(rank)` on code points. -/
def startswith (card rank : String) : Bool := rank.toList.isPrefixOf card.toList

/-- The loop guard of game.py line 59: the request is accepted iff the
(uppercased) typed rank is an ELEMENT of the hand list. -/
def human_rank_accepted (hand : List String) (rank : String) : Bool :=
  decide (rank ∈ hand)

/-- `Player.has_rank` (player.py 31-33) at string level. -/
def has_rank_str (hand : List String) (rank : String) : Bool :=
  hand.any (fun c => startswith c rank)

/-- C2 evaluated at game.py: a human holding the ace of spades asks for
rank "ace".  The notion of holding the rank used by the code itself
(`has_rank`/`startswith`) is true, but the acceptance test compares the
uppercased input "ACE" (and even the raw "ace") against the full
card-name strings, so the request is rejected and the human is
re-prompted although the rank is held. -/
theorem C2_held_rank_rejected :
    has_rank_str ["ace_of_spades"] "ace" = true ∧
    human_rank_accepted ["ace_of_spades"] "ACE" = false ∧
    human_rank_accepted ["ace_of_spades"] "ace" = false := by
  refine ⟨by decide, by decide, by decide⟩

end GoFish
